import Mathlib

/-!
# Verification of the Hayride runtime engine

A shallow embedding of the parts of the Hayride runtime that its
specification describes, together with theorems settling the spec's
claims against the code.

Sources embedded here:
* `crates/hayride-runtime/src/engine.rs` — capability linker
  (`WasmtimeEngine::link_imports`) and shape classification in
  `WasmtimeEngine::run`;
* `crates/hayride-llama/src/lib.rs` — `process_compute`: prompt-option
  handling, prompt-size adjustment, and the decode loop;
* `crates/hayride-utils/src/morphs/registry.rs` — `find_morph_path`;
* `crates/hayride-db/src/connection_string.rs` — DSN classification;
* `crates/hayride-runtime/src/silo/silo.rs` and `silo_impl.rs` — thread
  wait/kill;
* `crates/hayride-runtime/src/websocket.rs` — `WebsocketOutputPipe`;
* `crates/hayride-runtime/src/lib.rs` — `FileHostInputStream::read`.
-/

namespace Hayride

/-! ## Capability linker (`WasmtimeEngine::link_imports`)

`link_imports` walks the parsed import list, sets one boolean per known
capability namespace (`wasi`, and `hayride` with names `silo`, `core`,
`ai`, `wac`; `wasi:nn` additionally forces `ai`), ignores everything
else, and then fails on the first required-but-disabled capability in
the order wasi, core, ai, silo, wac. -/

/-- A parsed import package name: `namespace:name` (from
`WitParser::imports`). -/
structure ImportName where
  ns : String
  name : String
deriving DecidableEq, Repr

/-- The engine's enabled-capability flags (fields of `WasmtimeEngine`). -/
structure EngineCaps where
  wasi_enabled : Bool
  core_enabled : Bool
  ai_enabled : Bool
  silo_enabled : Bool
  wac_enabled : Bool
deriving DecidableEq, Repr

/-- The five capability namespaces the linker knows about. -/
inductive Capability
  | wasi
  | core
  | ai
  | silo
  | wac
deriving DecidableEq, Repr

/-- Which capabilities a component's imports require (the five booleans
accumulated by the `for_each` over `wit.imports()` in `link_imports`). -/
structure RequiredCaps where
  wasi : Bool
  core : Bool
  ai : Bool
  silo : Bool
  wac : Bool
deriving DecidableEq, Repr

/-- One step of the import scan in `link_imports`: matches on the
import's namespace and name, setting the corresponding flag; `wasi:nn`
also sets `ai`; unknown namespaces and unknown `hayride:*` names are
only logged. -/
def requiredStep (acc : RequiredCaps) (i : ImportName) : RequiredCaps :=
  if i.ns = "hayride" then
    if i.name = "silo" then { acc with silo := true }
    else if i.name = "core" then { acc with core := true }
    else if i.name = "ai" then { acc with ai := true }
    else if i.name = "wac" then { acc with wac := true }
    else acc
  else if i.ns = "wasi" then
    if i.name = "nn" then { acc with wasi := true, ai := true }
    else { acc with wasi := true }
  else acc

/-- The required-capability set of an import list. -/
def requiredCaps (imports : List ImportName) : RequiredCaps :=
  imports.foldl requiredStep ⟨false, false, false, false, false⟩

/-- Projection of `RequiredCaps` at a capability. -/
def RequiredCaps.at (r : RequiredCaps) : Capability → Bool
  | .wasi => r.wasi
  | .core => r.core
  | .ai => r.ai
  | .silo => r.silo
  | .wac => r.wac

/-- Projection of `EngineCaps` at a capability. -/
def EngineCaps.at (cfg : EngineCaps) : Capability → Bool
  | .wasi => cfg.wasi_enabled
  | .core => cfg.core_enabled
  | .ai => cfg.ai_enabled
  | .silo => cfg.silo_enabled
  | .wac => cfg.wac_enabled

/-- The check sequence of `link_imports`: fails with the "X is not
enabled" error for the first capability that is required but disabled
(checked in the order wasi, core, ai, silo, wac). -/
def linkCheck (cfg : EngineCaps) (req : RequiredCaps) : Except Capability Unit :=
  if req.wasi && !cfg.wasi_enabled then .error .wasi
  else if req.core && !cfg.core_enabled then .error .core
  else if req.ai && !cfg.ai_enabled then .error .ai
  else if req.silo && !cfg.silo_enabled then .error .silo
  else if req.wac && !cfg.wac_enabled then .error .wac
  else .ok ()

/-- `link_imports`: scans the imports for required capabilities and
builds the linker, or fails on a required-but-disabled capability. A
successful result stands for the populated linker. -/
def link_imports (cfg : EngineCaps) (imports : List ImportName) :
    Except Capability Unit :=
  linkCheck cfg (requiredCaps imports)

/-! ## Shape classification (`WasmtimeEngine::run`)

`run` starts from `Reactor` and iterates over all parsed function
exports with a `for_each`, overwriting the component type on every
export named `run` or `handle`; the parsed export list preserves the
order of the component world's exports (`parse_function_exports`). -/

/-- A parsed function export with the optional name of its enclosing
interface (`hayride_utils::wit::parser::Function`). -/
structure FunctionExport where
  name : String
  interfaceName : Option String
deriving DecidableEq, Repr

/-- The four execution shapes (`ComponentType` in engine.rs). -/
inductive ComponentType
  | Server
  | WebsocketServer
  | Cli
  | Reactor
deriving DecidableEq, Repr

/-- One step of the classification `for_each` in `WasmtimeEngine::run`. -/
def classifyStep (acc : ComponentType) (f : FunctionExport) : ComponentType :=
  if f.name = "run" then ComponentType.Cli
  else if f.name = "handle" then
    if f.interfaceName = some "websocket" then ComponentType.WebsocketServer
    else ComponentType.Server
  else acc

/-- The component type chosen by `WasmtimeEngine::run` from the list of
function exports (in export order). -/
def classify_component (exports : List FunctionExport) : ComponentType :=
  exports.foldl classifyStep ComponentType.Reactor

/-- The shape a single export dictates when it is the one that decides:
`run` dictates CLI, `handle` dictates WebSocket or HTTP server by its
enclosing interface, anything else dictates nothing. -/
def exportShape (f : FunctionExport) : Option ComponentType :=
  if f.name = "run" then some ComponentType.Cli
  else if f.name = "handle" then
    some (if f.interfaceName = some "websocket" then ComponentType.WebsocketServer
          else ComponentType.Server)
  else none

/-! ### Theorems: C1 -/

/-- A universally quantified statement over the five capabilities is the
conjunction of its five instances. -/
theorem capForall (P : Capability → Prop) :
    (∀ c, P c) ↔ P .wasi ∧ P .core ∧ P .ai ∧ P .silo ∧ P .wac :=
  ⟨fun h => ⟨h _, h _, h _, h _, h _⟩,
   fun ⟨a, b, c, d, e⟩ x => by cases x <;> assumption⟩

/-- `a && !b` is false exactly when requiring `a` implies `b` enabled. -/
theorem and_not_false_iff (a b : Bool) : (a && !b) = false ↔ (a = true → b = true) := by
  cases a <;> cases b <;> simp

/-- `linkCheck` succeeds exactly when all five gate conditions fail. -/
theorem linkCheck_isOk (cfg : EngineCaps) (req : RequiredCaps) :
    (linkCheck cfg req).isOk = true ↔
      (req.wasi && !cfg.wasi_enabled) = false ∧
      (req.core && !cfg.core_enabled) = false ∧
      (req.ai && !cfg.ai_enabled) = false ∧
      (req.silo && !cfg.silo_enabled) = false ∧
      (req.wac && !cfg.wac_enabled) = false := by
  unfold linkCheck
  split_ifs with h1 h2 h3 h4 h5 <;> simp_all [Except.isOk, Except.toBool]

/-- The error of a failed `linkCheck` names a capability that is
required but disabled. -/
theorem linkCheck_error (cfg : EngineCaps) (req : RequiredCaps) (c : Capability) :
    linkCheck cfg req = .error c → req.at c = true ∧ cfg.at c = false := by
  unfold linkCheck
  split_ifs with h1 h2 h3 h4 h5 <;> intro h <;>
    first
      | (cases h; simp_all [RequiredCaps.at, EngineCaps.at])
      | simp at h

/-- C1: building the linker succeeds iff every capability namespace the
component imports (hayride:core/ai/silo/wac and wasi, with wasi:nn
forcing ai) is enabled in the engine configuration; on failure the
error names a capability that is imported but disabled; imports from
unknown namespaces are ignored. -/
theorem link_imports_spec (cfg : EngineCaps) (imports : List ImportName) :
    ((link_imports cfg imports).isOk = true ↔
      ∀ c : Capability, (requiredCaps imports).at c = true → cfg.at c = true) ∧
    (∀ c : Capability, link_imports cfg imports = .error c →
      (requiredCaps imports).at c = true ∧ cfg.at c = false) ∧
    (∀ i : ImportName, i.ns ≠ "hayride" → i.ns ≠ "wasi" →
      link_imports cfg (imports ++ [i]) = link_imports cfg imports) := by
  refine ⟨?_, fun c => linkCheck_error cfg (requiredCaps imports) c, ?_⟩
  · rw [show link_imports cfg imports = linkCheck cfg (requiredCaps imports) from rfl,
      linkCheck_isOk, capForall (fun c => (requiredCaps imports).at c = true → cfg.at c = true)]
    simp only [RequiredCaps.at, EngineCaps.at, and_not_false_iff]
  · intro i h1 h2
    have hreq : requiredCaps (imports ++ [i]) = requiredCaps imports := by
      unfold requiredCaps
      rw [List.foldl_append]
      simp [requiredStep, h1, h2]
    unfold link_imports
    rw [hreq]

/-- C1 witness: concrete application of `link_imports_spec`: appending
an unknown-namespace import leaves linking unchanged. -/
theorem link_imports_spec_witness :
    link_imports ⟨true, true, false, false, false⟩
        ([⟨"wasi", "io"⟩, ⟨"hayride", "core"⟩] ++ [⟨"hayride-internal", "x"⟩]) =
      link_imports ⟨true, true, false, false, false⟩ [⟨"wasi", "io"⟩, ⟨"hayride", "core"⟩] :=
  (link_imports_spec ⟨true, true, false, false, false⟩
      [⟨"wasi", "io"⟩, ⟨"hayride", "core"⟩]).2.2
    ⟨"hayride-internal", "x"⟩ (by decide) (by decide)

/-! ### Theorems: C2 -/

/-- C2 counterexample: a component exporting `run` and then `handle` is
classified as an HTTP server, not CLI — the scan is last-match-wins,
not priority-ordered, so the claim "CLI is chosen regardless of the
order in which the exports are listed" is false. -/
theorem classify_run_then_handle_not_cli :
    classify_component [⟨"run", none⟩, ⟨"handle", none⟩] = ComponentType.Server ∧
    classify_component [⟨"run", none⟩, ⟨"handle", none⟩] ≠ ComponentType.Cli := by
  constructor <;> decide

/-- C2 (amended): the shape is decided by the LAST export named `run`
or `handle` in export order — an empty export list yields Reactor, an
export that dictates a shape overrides everything before it, an export
that dictates none leaves the classification unchanged, and a component
none of whose exports dictate a shape is a Reactor. -/
theorem classify_component_last_match (exports : List FunctionExport) (f : FunctionExport) :
    classify_component [] = ComponentType.Reactor ∧
    (∀ t, exportShape f = some t → classify_component (exports ++ [f]) = t) ∧
    (exportShape f = none →
      classify_component (exports ++ [f]) = classify_component exports) ∧
    ((∀ g ∈ exports, exportShape g = none) →
      classify_component exports = ComponentType.Reactor) := by
  refine ⟨rfl, ?_, ?_, ?_⟩
  · intro t ht
    unfold classify_component
    rw [List.foldl_append]
    simp only [List.foldl_cons, List.foldl_nil]
    unfold exportShape at ht
    unfold classifyStep
    split_ifs at ht ⊢ <;> simp_all
  · intro ht
    unfold classify_component
    rw [List.foldl_append]
    simp only [List.foldl_cons, List.foldl_nil]
    unfold exportShape at ht
    unfold classifyStep
    split_ifs at ht ⊢ <;> simp_all
  · intro hall
    unfold classify_component
    induction exports with
    | nil => rfl
    | cons g gs ih =>
      have hg := hall g (by simp)
      have hstep : classifyStep ComponentType.Reactor g = ComponentType.Reactor := by
        unfold exportShape at hg
        unfold classifyStep
        split_ifs at hg ⊢ <;> simp_all
      simp only [List.foldl_cons, hstep]
      exact ih (fun x hx => hall x (by simp [hx]))

/-- C2 witness: concrete application of `classify_component_last_match`:
`handle` (websocket) followed by `run` classifies as CLI. -/
theorem classify_component_last_match_witness :
    classify_component ([⟨"handle", some "websocket"⟩] ++ [⟨"run", none⟩]) =
      ComponentType.Cli :=
  (classify_component_last_match [⟨"handle", some "websocket"⟩] ⟨"run", none⟩).2.1
    ComponentType.Cli (by decide)

/-! ## LLM compute (`process_compute` in hayride-llama)

The option handling, the prompt-size adjustment and the decode loop of
`process_compute`, at the value level. Machine integers (`i32`) are
modelled as `Int` (no arithmetic here approaches the `i32` range);
`f32` fields, which the embedded code only copies and compares to zero,
are modelled as `ℚ`. The calls into the native llama library (decode,
sampling, token/piece conversion) are external; the loop is modelled
with decoding always succeeding and an end-of-generation oracle `eog`,
since a decode failure or an end-of-generation token only terminates
the loop early. -/

/-- The deserialized `options` tensor (`PromptOptions` in lib.rs). -/
structure PromptOptions where
  temperature : ℚ
  num_context : Int
  num_batch : Int
  max_predict : Int
  top_k : Int
  top_p : ℚ
  seed : Nat
deriving DecidableEq, Repr

/-- The effective compute parameters after option processing. -/
structure ComputeParams where
  num_context : Int
  batch_size : Int
  max_predict : Int
  temperature : ℚ
  top_k : Int
  top_p : ℚ
  seed : Nat
deriving DecidableEq, Repr

/-- 128k maximum context for llama.cpp (`max_context` in
`process_compute`). -/
def max_context : Int := 128000

/-- Option processing at the top of `process_compute`: every parameter
starts at its default; a present options tensor overrides
`num_context`, `num_batch`, `max_predict`, `top_k` and `seed` only when
the provided value is non-zero (with `num_context` capped at
`max_context` and `num_batch` capped at the effective `num_context`),
and overrides `temperature` and `top_p` unconditionally. `randomSeed`
stands for the freshly drawn `rng.random()` default. -/
def computeParams (options : Option PromptOptions) (randomSeed : Nat) : ComputeParams :=
  let base : ComputeParams :=
    { num_context := 40960, batch_size := 2048, max_predict := 5000,
      temperature := 0.8, top_k := 20, top_p := 0.95, seed := randomSeed }
  match options with
  | none => base
  | some o =>
    let nc : Int :=
      if o.num_context ≠ 0 then
        (if o.num_context > max_context then max_context else o.num_context)
      else base.num_context
    let nb : Int :=
      if o.num_batch ≠ 0 then
        (if o.num_batch > nc then nc else o.num_batch)
      else base.batch_size
    let mp : Int := if o.max_predict ≠ 0 then o.max_predict else base.max_predict
    let tk : Int := if o.top_k ≠ 0 then o.top_k else base.top_k
    let sd : Nat := if o.seed ≠ 0 then o.seed else randomSeed
    { num_context := nc, batch_size := nb, max_predict := mp,
      temperature := o.temperature, top_k := tk, top_p := o.top_p, seed := sd }

/-- Result of the prompt-size handling: the (possibly rebuilt) batch
size together with the effective prompt length. -/
structure AdjustResult where
  batch_size : Int
  prompt_len : Int
deriving DecidableEq, Repr

/-- Rust `Vec::drain(0..k)` at the length level: the vector's new
length, or `none` when the range end `k` exceeds the current length
(the std panic "range end index out of range"). -/
def vecDrainLen (len k : Nat) : Option Nat :=
  if k ≤ len then some (len - k) else none

/-- The "context too large" handling in `process_compute`: when
`prompt_size >= batch_size`, either rebuild the context with
`batch_size := min(prompt_size + 512, num_context)` (when that value
exceeds the current batch size — the `<= num_context` half of the
source's guard is vacuous because of the `min`), or fall to the
truncation arm. That arm calls
`prompt_tokens.drain(0..truncate_amount)` with
`truncate_amount = prompt_size - (batch_size - 64)`; but
`prompt_tokens` was built with `Vec::with_capacity` and the FFI
tokenizer writes through the raw pointer without touching the length,
and `set_len(prompt_size)` runs only AFTER this whole block — so at
the drain site the vector's length is still 0 and the drain panics
(`none`). Were the drain to succeed (`truncate_amount = 0`, impossible
here since `prompt_size ≥ batch_size` makes it at least 64), the
unconditional `set_len(prompt_size)` after the block would restore the
full prompt length anyway. -/
def adjustPrompt (prompt_size batch_size num_context : Int) : Option AdjustResult :=
  if prompt_size ≥ batch_size then
    let new_batch := min (prompt_size + 512) num_context
    if new_batch ≤ num_context ∧ new_batch > batch_size then
      some ⟨new_batch, prompt_size⟩
    else
      match vecDrainLen 0 (prompt_size - (batch_size - 64)).toNat with
      | some _ => some ⟨batch_size, prompt_size⟩
      | none => none
  else some ⟨batch_size, prompt_size⟩

/-- The decode-loop state: the KV position, the count of decoded
tokens, the size of the batch to decode next (the full prompt first,
then a single token), and whether the loop has exited. -/
structure DecodeState where
  position : Int
  n_decoded : Nat
  batch_tokens : Int
  finished : Bool
deriving DecidableEq, Repr

/-- Loop entry: position 0, nothing decoded, the whole prompt as the
first batch. -/
def initDecodeState (prompt_size : Int) : DecodeState :=
  ⟨0, 0, prompt_size, false⟩

/-- One iteration of the decode loop of `process_compute` with prompt
size `P`, context size `C` and token budget `maxPredict`: stop when
`position + batch.n_tokens() >= P + maxPredict` or when `position >
C - 1000`; otherwise decode (advancing `position` by the batch size),
stop on an end-of-generation token, else prepare a single-token batch
and — every 100 decoded tokens while `position > C / 2` — clear the KV
cache and reset `position` to the prompt size. `eog n` tells whether
the token sampled when `n_decoded = n` is end-of-generation. -/
def decodeStep (P C maxPredict : Int) (eog : Nat → Bool) (s : DecodeState) : DecodeState :=
  if s.finished then s
  else if ¬ (s.position + s.batch_tokens < P + maxPredict) then { s with finished := true }
  else if s.position > C - 1000 then { s with finished := true }
  else if eog s.n_decoded then
    { s with position := s.position + s.batch_tokens, finished := true }
  else if s.n_decoded % 100 = 0 ∧ s.position + s.batch_tokens > Int.tdiv C 2 then
    { position := P, n_decoded := s.n_decoded + 1, batch_tokens := 1, finished := false }
  else
    { position := s.position + s.batch_tokens, n_decoded := s.n_decoded + 1,
      batch_tokens := 1, finished := false }

/-- The decode loop, run for `fuel` iterations (iterating past exit is
the identity). -/
def runDecodeLoop (P C maxPredict : Int) (eog : Nat → Bool) : Nat → DecodeState
  | 0 => initDecodeState P
  | n + 1 => decodeStep P C maxPredict eog (runDecodeLoop P C maxPredict eog n)

/-! ### Theorems: C4 (prompt options) -/

/-- C4 counterexample: an options tensor with every field zero yields
effective temperature 0 and top-p 0, not the defaults 0.8 and 0.95 —
`temperature` and `top_p` are copied from the options unconditionally,
so "each field set to zero leaves the effective parameter at its
default" is false. -/
theorem computeParams_zero_float_fields_not_default :
    (computeParams (some ⟨0, 0, 0, 0, 0, 0, 0⟩) 7).temperature = 0 ∧
    (computeParams (some ⟨0, 0, 0, 0, 0, 0, 0⟩) 7).top_p = 0 ∧
    (0.8 : ℚ) ≠ 0 ∧ (0.95 : ℚ) ≠ 0 := by
  refine ⟨rfl, rfl, by norm_num, by norm_num⟩

/-- C4 (amended): with no options tensor every parameter is the
default; with an options tensor, a zero in the int/uint fields
(`num_context`, `num_batch`, `max_predict`, `top_k`, `seed`) keeps the
default (40960 / 2048 / 5000 / 20 / random), a non-zero value is used
as given with `num_context` capped at 128000 and `num_batch` capped at
the effective `num_context`, while `temperature` and `top_p` are taken
from the options unconditionally (a zero is used as zero, not replaced
by the defaults 0.8 / 0.95). -/
theorem computeParams_spec (o : PromptOptions) (r : Nat) :
    computeParams none r =
      { num_context := 40960, batch_size := 2048, max_predict := 5000,
        temperature := 0.8, top_k := 20, top_p := 0.95, seed := r } ∧
    (computeParams (some o) r).num_context =
      (if o.num_context = 0 then 40960 else min o.num_context 128000) ∧
    (computeParams (some o) r).batch_size =
      (if o.num_batch = 0 then 2048
       else min o.num_batch (computeParams (some o) r).num_context) ∧
    (computeParams (some o) r).max_predict =
      (if o.max_predict = 0 then 5000 else o.max_predict) ∧
    (computeParams (some o) r).temperature = o.temperature ∧
    (computeParams (some o) r).top_k = (if o.top_k = 0 then 20 else o.top_k) ∧
    (computeParams (some o) r).top_p = o.top_p ∧
    (computeParams (some o) r).seed = (if o.seed = 0 then r else o.seed) := by
  refine ⟨rfl, ?_, ?_, ?_, rfl, ?_, rfl, ?_⟩ <;>
    simp only [computeParams, max_context] <;> split_ifs <;> first | rfl | omega

/-! ### Theorems: C5 (prompt-size adjustment) -/

/-- C5 counterexample: a 3000-token prompt with `num_context = 2048`
and `num_batch = 1024` is NOT truncated to 960 tokens: since
`min(3000 + 512, 2048) = 2048 > 1024`, the code rebuilds the context
with `batch_size = 2048` and keeps all 3000 prompt tokens. -/
theorem adjustPrompt_3000_example :
    adjustPrompt 3000 1024 2048 = some ⟨2048, 3000⟩ ∧
    Option.map AdjustResult.prompt_len (adjustPrompt 3000 1024 2048) ≠ some 960 := by
  constructor <;> decide

/-- C5 (amended): a prompt shorter than the batch size is untouched;
when `prompt_size ≥ batch_size`, the context is rebuilt with
`batch_size := min(prompt_size + 512, num_context)` whenever that value
exceeds the current batch size (equivalently, whenever
`num_context > batch_size`) — not only when
`prompt_size + 512 ≤ num_context` — and the full prompt is kept. In
the remaining case the program does NOT produce a
`batch_size − 64`-token prompt: the truncation arm drains a
still-length-0 token buffer and panics. -/
theorem adjustPrompt_spec (p b c : Int) :
    (p < b → adjustPrompt p b c = some ⟨b, p⟩) ∧
    (p ≥ b → min (p + 512) c > b → adjustPrompt p b c = some ⟨min (p + 512) c, p⟩) ∧
    (p ≥ b → min (p + 512) c ≤ b → adjustPrompt p b c = none) := by
  unfold adjustPrompt
  refine ⟨?_, ?_, ?_⟩ <;> intro h1 <;> try intro h2
  · rw [if_neg (by omega)]
  · rw [if_pos h1, if_pos ⟨by omega, h2⟩]
  · rw [if_pos h1, if_neg (by omega)]
    have hk : vecDrainLen 0 (p - (b - 64)).toNat = none := by
      unfold vecDrainLen
      rw [if_neg (by omega)]
    rw [hk]

/-- C5 witness: concrete applications of `adjustPrompt_spec` at the
claim's own example (3000 tokens, batch 1024, context 2048: rebuild)
and at a truncation-arm instance (2100 tokens, batch = context = 2048:
the drain panics). -/
theorem adjustPrompt_spec_witness :
    adjustPrompt 3000 1024 2048 = some ⟨min (3000 + 512) 2048, 3000⟩ ∧
    adjustPrompt 2100 2048 2048 = none :=
  ⟨(adjustPrompt_spec 3000 1024 2048).2.1 (by decide) (by decide),
   (adjustPrompt_spec 2100 2048 2048).2.2 (by decide) (by decide)⟩

/-! ### Theorems: C3 (decode-loop bounds) -/

set_option maxRecDepth 4000 in
/-- C3 counterexample: with `num_context = 4000`, `max_predict = 200`
(from an options tensor with those values) and a 2500-token prompt,
the proactive KV-cache cleanup keeps resetting `position` to the
prompt length, so the loop keeps decoding: after 302 iterations
`n_decoded = 302 > 200 = max_predict`, refuting
"n_decoded never exceeds max_predict". -/
theorem decode_loop_budget_counterexample :
    (computeParams (some ⟨1, 4000, 0, 200, 0, 0, 0⟩) 7).num_context = 4000 ∧
    (computeParams (some ⟨1, 4000, 0, 200, 0, 0, 0⟩) 7).max_predict = 200 ∧
    Option.map AdjustResult.prompt_len
      (adjustPrompt 2500 (computeParams (some ⟨1, 4000, 0, 200, 0, 0, 0⟩) 7).batch_size 4000) =
      some 2500 ∧
    (runDecodeLoop 2500 4000 200 (fun _ => false) 302).n_decoded = 302 ∧
    ¬ ((302 : Int) ≤ 200) := by
  refine ⟨rfl, rfl, by decide, by decide, by decide⟩

/-- Invariant for the position bound: the position stays below
`max P (C − 999)`, and the pending batch is a single token unless the
loop is finished or still at its initial state. -/
def PosInv (P C : Int) (s : DecodeState) : Prop :=
  s.position ≤ max P (C - 999) ∧
    (s.finished = true ∨ s.batch_tokens = 1 ∨ (s.position = 0 ∧ s.batch_tokens = P))

/-- One decode step preserves the position invariant. -/
theorem posInv_step (P C mp : Int) (eog : Nat → Bool) (s : DecodeState)
    (h : PosInv P C s) : PosInv P C (decodeStep P C mp eog s) := by
  obtain ⟨hpos, hbatch⟩ := h
  unfold decodeStep PosInv
  by_cases h1 : s.finished = true
  · rw [if_pos h1]
    exact ⟨hpos, hbatch⟩
  rw [if_neg h1]
  by_cases h2 : ¬ (s.position + s.batch_tokens < P + mp)
  · rw [if_pos h2]
    exact ⟨hpos, Or.inl rfl⟩
  rw [if_neg h2]
  push_neg at h2
  by_cases h3 : s.position > C - 1000
  · rw [if_pos h3]
    exact ⟨hpos, Or.inl rfl⟩
  rw [if_neg h3]
  push_neg at h3
  have hnext : s.position + s.batch_tokens ≤ max P (C - 999) := by
    rcases hbatch with hf | hb | ⟨hp0, hbP⟩
    · exact absurd hf h1
    · rw [hb]; omega
    · rw [hp0, hbP]; omega
  by_cases h4 : eog s.n_decoded = true
  · rw [if_pos h4]
    exact ⟨hnext, Or.inl rfl⟩
  rw [if_neg h4]
  by_cases h5 : s.n_decoded % 100 = 0 ∧ s.position + s.batch_tokens > Int.tdiv C 2
  · rw [if_pos h5]
    exact ⟨le_max_left _ _, Or.inr (Or.inl rfl)⟩
  · rw [if_neg h5]
    exact ⟨hnext, Or.inr (Or.inl rfl)⟩

/-- Invariant for the decoded-token bound, under the proviso that the
cleanup threshold `C / 2` is never reached: the count stays below the
budget, and either nothing was decoded yet or the position tracks
`P + n_decoded − 1`. -/
def CntInv (P mp : Int) (s : DecodeState) : Prop :=
  ((s.n_decoded : Int) ≤ mp) ∧
    (s.finished = true ∨
      (s.n_decoded = 0 ∧ s.position = 0 ∧ s.batch_tokens = P) ∨
      (1 ≤ s.n_decoded ∧ s.position = P + (s.n_decoded : Int) - 1 ∧ s.batch_tokens = 1))

/-- One decode step preserves the decoded-token invariant, provided the
prompt-plus-budget never reaches the cleanup threshold. -/
theorem cntInv_step (P C mp : Int) (eog : Nat → Bool) (s : DecodeState)
    (hC : P + mp ≤ Int.tdiv C 2) (h : CntInv P mp s) :
    CntInv P mp (decodeStep P C mp eog s) := by
  obtain ⟨hcnt, hshape⟩ := h
  unfold decodeStep CntInv
  by_cases h1 : s.finished = true
  · rw [if_pos h1]
    exact ⟨hcnt, hshape⟩
  rw [if_neg h1]
  by_cases h2 : ¬ (s.position + s.batch_tokens < P + mp)
  · rw [if_pos h2]
    exact ⟨hcnt, Or.inl rfl⟩
  rw [if_neg h2]
  push_neg at h2
  by_cases h3 : s.position > C - 1000
  · rw [if_pos h3]
    exact ⟨hcnt, Or.inl rfl⟩
  rw [if_neg h3]
  by_cases h4 : eog s.n_decoded = true
  · rw [if_pos h4]
    exact ⟨hcnt, Or.inl rfl⟩
  rw [if_neg h4]
  by_cases h5 : s.n_decoded % 100 = 0 ∧ s.position + s.batch_tokens > Int.tdiv C 2
  · -- the cleanup cannot fire below the threshold
    exfalso
    obtain ⟨-, h5b⟩ := h5
    generalize hD : Int.tdiv C 2 = D at h5b hC
    rcases hshape with hf | ⟨hd0, hp0, hbP⟩ | ⟨hd1, hpos, hb1⟩
    · exact absurd hf h1
    · rw [hp0, hbP] at h2 h5b
      omega
    · rw [hpos, hb1] at h2 h5b
      omega
  · rw [if_neg h5]
    refine ⟨?_, Or.inr (Or.inr ⟨?_, ?_, rfl⟩)⟩
    · show ((s.n_decoded + 1 : Nat) : Int) ≤ mp
      rcases hshape with hf | ⟨hd0, hp0, hbP⟩ | ⟨hd1, hpos, hb1⟩
      · exact absurd hf h1
      · rw [hp0, hbP] at h2
        rw [hd0]
        push_cast
        omega
      · rw [hpos, hb1] at h2
        push_cast at hcnt ⊢
        omega
    · show 1 ≤ s.n_decoded + 1
      omega
    · show s.position + s.batch_tokens = P + ((s.n_decoded + 1 : Nat) : Int) - 1
      rcases hshape with hf | ⟨hd0, hp0, hbP⟩ | ⟨hd1, hpos, hb1⟩
      · exact absurd hf h1
      · rw [hd0, hp0, hbP]
        push_cast
        omega
      · rw [hpos, hb1]
        push_cast
        omega

/-- C3 (amended): in the decode loop, `position` never exceeds
`max(prompt length, num_context − 999)` (the loop exits as soon as
`position > num_context − 1000`, and otherwise grows by at most one
token past that bound, except that the first decode jumps to the
prompt length); and when the proactive cleanup can never fire — i.e.
when `prompt length + max_predict ≤ num_context / 2` — `n_decoded`
never exceeds `max_predict`. Without that proviso `n_decoded` is
unbounded, and `position` itself exceeds `num_context` whenever the
prompt is longer than the context (possible since the batch size is
only capped by `num_context` when `num_batch` is non-zero). -/
theorem decode_loop_bounds (P C mp : Int) (eog : Nat → Bool) (fuel : Nat) :
    (0 ≤ P → (runDecodeLoop P C mp eog fuel).position ≤ max P (C - 999)) ∧
    (0 ≤ mp → P + mp ≤ Int.tdiv C 2 →
      ((runDecodeLoop P C mp eog fuel).n_decoded : Int) ≤ mp) := by
  constructor
  · intro hP
    suffices h : PosInv P C (runDecodeLoop P C mp eog fuel) from h.1
    induction fuel with
    | zero =>
      exact ⟨by simp [runDecodeLoop, initDecodeState]; omega,
        Or.inr (Or.inr ⟨rfl, rfl⟩)⟩
    | succ n ih => exact posInv_step P C mp eog _ ih
  · intro hmp hC
    suffices h : CntInv P mp (runDecodeLoop P C mp eog fuel) from h.1
    induction fuel with
    | zero =>
      exact ⟨by simpa [runDecodeLoop, initDecodeState] using hmp,
        Or.inr (Or.inl ⟨rfl, rfl, rfl⟩)⟩
    | succ n ih => exact cntInv_step P C mp eog _ hC ih

/-- C3 witness: concrete application of `decode_loop_bounds`: with a
10-token prompt, context 4000 and budget 5, `n_decoded` stays at most
5 after 20 iterations. -/
theorem decode_loop_bounds_witness :
    ((runDecodeLoop 10 4000 5 (fun _ => false) 20).n_decoded : Int) ≤ 5 :=
  (decode_loop_bounds 10 4000 5 (fun _ => false) 20).2 (by decide) (by decide)

/-! ## Morph registry (`find_morph_path` in hayride-utils)

`find_morph_path` parses `package:name[@version]`, then either joins the
explicit version into the path or selects the greatest semver-valid
directory name with `max_by_key` over `semver::Version` (the `semver`
crate's total order: major, minor, patch, semver-precedence on the
prerelease, then build metadata), joins `<name>.wasm`, and
canonicalizes (which fails when the file does not exist). The
filesystem is modelled as the directory listing and an
existence predicate; paths are lists of components. -/

/-- `str::split_once` on a character list: splits at the first
occurrence. -/
def splitOnceAux (c : Char) : List Char → Option (List Char × List Char)
  | [] => none
  | x :: xs =>
    if x = c then some ([], xs)
    else
      match splitOnceAux c xs with
      | none => none
      | some (a, b) => some (x :: a, b)

/-- `str::split_once` on strings. -/
def splitOnce (s : String) (c : Char) : Option (String × String) :=
  match splitOnceAux c s.toList with
  | none => none
  | some (a, b) => some (String.mk a, String.mk b)

/-- `parse_identifier` in registry.rs: `<package>:<name>[@<version>]`,
splitting at the first `:` and the first `@` of the remainder. -/
def parse_identifier (input : String) : Option (String × String × Option String) :=
  match splitOnce input ':' with
  | none => none
  | some (package, rest) =>
    match splitOnce rest '@' with
    | none => some (package, rest, none)
    | some (n, v) => some (package, n, some v)

/-! ### Comparator framework

`Ordering`-valued comparators with the algebra needed to prove that
`max_by_key` returns a maximum. -/

/-- A comparator agrees with its own flip. -/
def CmpSwap {α : Type _} (cmp : α → α → Ordering) : Prop :=
  ∀ a b, cmp a b = (cmp b a).swap

/-- A comparator whose `eq` answer means real equality. -/
def CmpEq {α : Type _} (cmp : α → α → Ordering) : Prop :=
  ∀ a b, cmp a b = .eq ↔ a = b

/-- A comparator with a transitive strict order. -/
def CmpLtTrans {α : Type _} (cmp : α → α → Ordering) : Prop :=
  ∀ a b c, cmp a b = .lt → cmp b c = .lt → cmp a c = .lt

/-- The comparator laws needed for maximum selection: flip agreement
and transitivity of `lt`/`eq` in all combinations. -/
structure CmpLaws {α : Type _} (cmp : α → α → Ordering) : Prop where
  swap : ∀ a b, cmp a b = (cmp b a).swap
  lt_trans : ∀ a b c, cmp a b = .lt → cmp b c = .lt → cmp a c = .lt
  eq_trans : ∀ a b c, cmp a b = .eq → cmp b c = .eq → cmp a c = .eq
  lt_eq : ∀ a b c, cmp a b = .lt → cmp b c = .eq → cmp a c = .lt
  eq_lt : ∀ a b c, cmp a b = .eq → cmp b c = .lt → cmp a c = .lt

/-- A comparator whose `eq` is real equality and whose `lt` is
transitive satisfies all the laws. -/
theorem cmpLaws_of_eq {α : Type _} {cmp : α → α → Ordering}
    (hs : CmpSwap cmp) (he : CmpEq cmp) (ht : CmpLtTrans cmp) : CmpLaws cmp := by
  refine ⟨hs, ht, ?_, ?_, ?_⟩
  · intro a b c h1 h2
    obtain rfl := (he a b).mp h1
    exact h2
  · intro a b c h1 h2
    obtain rfl := (he b c).mp h2
    exact h1
  · intro a b c h1 h2
    obtain rfl := (he a b).mp h1
    exact h2

/-- Comparing through a projection. -/
def cmpOn {α β : Type _} (f : α → β) (cmp : β → β → Ordering) (a b : α) : Ordering :=
  cmp (f a) (f b)

/-- Lexicographic combination of two comparators on the same type. -/
def cmpThen {α : Type _} (c1 c2 : α → α → Ordering) (a b : α) : Ordering :=
  (c1 a b).then (c2 a b)

theorem then_eq_lt (o1 o2 : Ordering) :
    o1.then o2 = .lt ↔ o1 = .lt ∨ (o1 = .eq ∧ o2 = .lt) := by
  cases o1 <;> simp [Ordering.then]

theorem then_eq_eq (o1 o2 : Ordering) :
    o1.then o2 = .eq ↔ o1 = .eq ∧ o2 = .eq := by
  cases o1 <;> simp [Ordering.then]

theorem then_swap (o1 o2 : Ordering) : (o1.then o2).swap = o1.swap.then o2.swap := by
  cases o1 <;> cases o2 <;> rfl

theorem cmpOn_laws {α β : Type _} (f : α → β) {cmp : β → β → Ordering}
    (h : CmpLaws cmp) : CmpLaws (cmpOn f cmp) := by
  refine ⟨?_, ?_, ?_, ?_, ?_⟩ <;> intro a b <;> first
    | exact h.swap (f a) (f b)
    | (intro c
       first
        | exact h.lt_trans (f a) (f b) (f c)
        | exact h.eq_trans (f a) (f b) (f c)
        | exact h.lt_eq (f a) (f b) (f c)
        | exact h.eq_lt (f a) (f b) (f c))

theorem cmpThen_laws {α : Type _} {c1 c2 : α → α → Ordering}
    (h1 : CmpLaws c1) (h2 : CmpLaws c2) : CmpLaws (cmpThen c1 c2) := by
  refine ⟨?_, ?_, ?_, ?_, ?_⟩
  · intro a b
    show (c1 a b).then (c2 a b) = ((c1 b a).then (c2 b a)).swap
    rw [then_swap, ← h1.swap, ← h2.swap]
  · intro a b c hab hbc
    rcases (then_eq_lt _ _).mp hab with l1 | ⟨e1, l1'⟩ <;>
      rcases (then_eq_lt _ _).mp hbc with l2 | ⟨e2, l2'⟩
    · exact (then_eq_lt _ _).mpr (Or.inl (h1.lt_trans _ _ _ l1 l2))
    · exact (then_eq_lt _ _).mpr (Or.inl (h1.lt_eq _ _ _ l1 e2))
    · exact (then_eq_lt _ _).mpr (Or.inl (h1.eq_lt _ _ _ e1 l2))
    · exact (then_eq_lt _ _).mpr
        (Or.inr ⟨h1.eq_trans _ _ _ e1 e2, h2.lt_trans _ _ _ l1' l2'⟩)
  · intro a b c hab hbc
    obtain ⟨e1, e1'⟩ := (then_eq_eq _ _).mp hab
    obtain ⟨e2, e2'⟩ := (then_eq_eq _ _).mp hbc
    exact (then_eq_eq _ _).mpr ⟨h1.eq_trans _ _ _ e1 e2, h2.eq_trans _ _ _ e1' e2'⟩
  · intro a b c hab hbc
    obtain ⟨e2, e2'⟩ := (then_eq_eq _ _).mp hbc
    rcases (then_eq_lt _ _).mp hab with l1 | ⟨e1, l1'⟩
    · exact (then_eq_lt _ _).mpr (Or.inl (h1.lt_eq _ _ _ l1 e2))
    · exact (then_eq_lt _ _).mpr
        (Or.inr ⟨h1.eq_trans _ _ _ e1 e2, h2.lt_eq _ _ _ l1' e2'⟩)
  · intro a b c hab hbc
    obtain ⟨e1, e1'⟩ := (then_eq_eq _ _).mp hab
    rcases (then_eq_lt _ _).mp hbc with l2 | ⟨e2, l2'⟩
    · exact (then_eq_lt _ _).mpr (Or.inl (h1.eq_lt _ _ _ e1 l2))
    · exact (then_eq_lt _ _).mpr
        (Or.inr ⟨h1.eq_trans _ _ _ e1 e2, h2.eq_lt _ _ _ e1' l2'⟩)

/-- With the laws, "not greater" is transitive. -/
theorem cmp_le_trans {α : Type _} {cmp : α → α → Ordering} (h : CmpLaws cmp)
    (a b c : α) (h1 : cmp a b ≠ .gt) (h2 : cmp b c ≠ .gt) : cmp a c ≠ .gt := by
  intro hac
  rcases o1 : cmp a b with _ | _ | _ <;> rcases o2 : cmp b c with _ | _ | _ <;>
    first
      | exact h1 o1
      | exact h2 o2
      | (first
          | have := h.lt_trans a b c o1 o2
          | have := h.lt_eq a b c o1 o2
          | have := h.eq_lt a b c o1 o2
          | have := h.eq_trans a b c o1 o2
         rw [hac] at this
         exact Ordering.noConfusion this)

/-- `compare` on `Nat` satisfies the laws. -/
theorem natCompare_laws : CmpLaws (compare : Nat → Nat → Ordering) := by
  refine cmpLaws_of_eq ?_ ?_ ?_
  · intro a b
    show compare a b = (compare b a).swap
    rcases Nat.lt_trichotomy a b with h | h | h
    · rw [Nat.compare_eq_lt.mpr h, Nat.compare_eq_gt.mpr h]
      rfl
    · subst h
      rw [Nat.compare_eq_eq.mpr rfl]
      rfl
    · rw [Nat.compare_eq_gt.mpr h, Nat.compare_eq_lt.mpr h]
      rfl
  · intro a b
    exact Nat.compare_eq_eq
  · intro a b c h1 h2
    exact Nat.compare_eq_lt.mpr
      (Nat.lt_trans (Nat.compare_eq_lt.mp h1) (Nat.compare_eq_lt.mp h2))

/-- Character comparison by code point (`Ord` on `char` in Rust). -/
def charCompare (a b : Char) : Ordering := compare a.toNat b.toNat

theorem charCompare_swap : CmpSwap charCompare :=
  fun a b => natCompare_laws.swap a.toNat b.toNat

theorem charCompare_eq : CmpEq charCompare := by
  intro a b
  constructor
  · intro h
    exact Char.eq_of_val_eq (UInt32.ext (Nat.compare_eq_eq.mp h))
  · rintro rfl
    exact Nat.compare_eq_eq.mpr rfl

theorem charCompare_lt_trans : CmpLtTrans charCompare :=
  fun a b c => natCompare_laws.lt_trans a.toNat b.toNat c.toNat

/-- Lexicographic list comparison (`Ord` on slices in Rust: shorter
prefix first). -/
def listCompare {α : Type _} (cmp : α → α → Ordering) : List α → List α → Ordering
  | [], [] => .eq
  | [], _ :: _ => .lt
  | _ :: _, [] => .gt
  | a :: as, b :: bs =>
    match cmp a b with
    | .eq => listCompare cmp as bs
    | o => o

theorem listCompare_swap {α : Type _} {cmp : α → α → Ordering} (hs : CmpSwap cmp) :
    CmpSwap (listCompare cmp) := by
  intro a
  induction a with
  | nil => intro b; cases b <;> rfl
  | cons x xs ih =>
    intro b
    cases b with
    | nil => rfl
    | cons y ys =>
      show (match cmp x y with
            | .eq => listCompare cmp xs ys
            | o => o) =
          (match cmp y x with
            | .eq => listCompare cmp ys xs
            | o => o).swap
      rw [hs x y]
      rcases cmp y x with _ | _ | _
      · rfl
      · exact ih ys
      · rfl

theorem listCompare_eq {α : Type _} {cmp : α → α → Ordering} (he : CmpEq cmp) :
    CmpEq (listCompare cmp) := by
  intro a
  induction a with
  | nil =>
    intro b
    cases b <;> simp [listCompare]
  | cons x xs ih =>
    intro b
    cases b with
    | nil => simp [listCompare]
    | cons y ys =>
      show (match cmp x y with
            | .eq => listCompare cmp xs ys
            | o => o) = .eq ↔ _
      rcases o : cmp x y with _ | _ | _
      · constructor
        · intro h
          exact absurd h (by simp)
        · intro h
          obtain ⟨rfl, rfl⟩ : x = y ∧ xs = ys := by simpa using h
          have he' := (he x x).mpr rfl
          rw [o] at he'
          exact absurd he' (by simp)
      · obtain rfl := (he x y).mp o
        rw [ih ys]
        simp
      · constructor
        · intro h
          exact absurd h (by simp)
        · intro h
          obtain ⟨rfl, rfl⟩ : x = y ∧ xs = ys := by simpa using h
          have he' := (he x x).mpr rfl
          rw [o] at he'
          exact absurd he' (by simp)

theorem listCompare_lt_trans {α : Type _} {cmp : α → α → Ordering}
    (he : CmpEq cmp) (ht : CmpLtTrans cmp) : CmpLtTrans (listCompare cmp) := by
  intro a
  induction a with
  | nil =>
    intro b c hab hbc
    cases b with
    | nil => exact hbc
    | cons y ys =>
      cases c with
      | nil => exact absurd hbc (by simp [listCompare])
      | cons z zs => rfl
  | cons x xs ih =>
    intro b c hab hbc
    cases b with
    | nil => exact absurd hab (by simp [listCompare])
    | cons y ys =>
      cases c with
      | nil => exact absurd hbc (by simp [listCompare])
      | cons z zs =>
        revert hab hbc
        show (match cmp x y with
              | .eq => listCompare cmp xs ys
              | o => o) = .lt →
            (match cmp y z with
              | .eq => listCompare cmp ys zs
              | o => o) = .lt →
            (match cmp x z with
              | .eq => listCompare cmp xs zs
              | o => o) = .lt
        rcases o1 : cmp x y with _ | _ | _ <;> rcases o2 : cmp y z with _ | _ | _ <;>
          intro hab hbc
        · rw [ht x y z o1 o2]
        · obtain rfl := (he y z).mp o2
          rw [o1]
        · exact absurd hbc (by simp)
        · obtain rfl := (he x y).mp o1
          rw [o2]
        · obtain rfl := (he x y).mp o1
          rw [o2]
          exact ih ys zs hab hbc
        · exact absurd hbc (by simp)
        · exact absurd hab (by simp)
        · exact absurd hab (by simp)
        · exact absurd hab (by simp)

/-! ### The `semver` crate model -/

/-- Decimal digits to a number (value of a numeric component). -/
def digitsToNat (s : List Char) : Nat :=
  s.foldl (fun a c => a * 10 + (c.toNat - '0'.toNat)) 0

/-- A strict numeric version component (`semver`): nonempty, all
digits, no leading zero. -/
def parseNumericStrict (s : List Char) : Option Nat :=
  if s.isEmpty then none
  else if ¬ s.all Char.isDigit then none
  else if 1 < s.length ∧ s.head? = some '0' then none
  else some (digitsToNat s)

/-- Characters allowed in prerelease/build identifiers. -/
def isIdentChar (c : Char) : Bool := c.isAlphanum || c = '-'

/-- A prerelease identifier: nonempty, identifier characters, and when
fully numeric, no leading zero. The raw characters are kept (the crate
compares identifier strings). -/
def parsePreId (s : List Char) : Option (List Char) :=
  if s.isEmpty then none
  else if ¬ s.all isIdentChar then none
  else if s.all Char.isDigit ∧ 1 < s.length ∧ s.head? = some '0' then none
  else some s

/-- A build identifier: nonempty identifier characters (leading zeros
allowed). -/
def parseBuildId (s : List Char) : Option (List Char) :=
  if s.isEmpty then none
  else if ¬ s.all isIdentChar then none
  else some s

/-- Split at every `.` (keeping empty segments, like `str::split`). -/
def splitDots : List Char → List (List Char)
  | [] => [[]]
  | c :: cs =>
    if c = '.' then [] :: splitDots cs
    else
      match splitDots cs with
      | [] => [[c]]
      | h :: t => (c :: h) :: t

/-- `Option`-valued traversal. -/
def traverseOpt {α β : Type _} (f : α → Option β) : List α → Option (List β)
  | [] => some []
  | x :: xs =>
    match f x, traverseOpt f xs with
    | some y, some ys => some (y :: ys)
    | _, _ => none

/-- A parsed `semver::Version`. Prerelease and build are kept as their
identifier strings, as in the crate. -/
structure SemVer where
  major : Nat
  minor : Nat
  patch : Nat
  pre : List (List Char)
  build : List (List Char)
deriving DecidableEq, Repr

/-- Models `semver::Version::parse` (strict SemVer):
`MAJOR.MINOR.PATCH` with optional `-PRERELEASE` and `+BUILD`; build is
split off at the first `+`, the prerelease at the first `-` of what
remains (the numeric core contains no `-`). -/
def parseSemVer (s : String) : Option SemVer :=
  let cs := s.toList
  let core_build : List Char × Option (List Char) :=
    match splitOnceAux '+' cs with
    | none => (cs, none)
    | some (a, b) => (a, some b)
  let core_pre : List Char × Option (List Char) :=
    match splitOnceAux '-' core_build.1 with
    | none => (core_build.1, none)
    | some (a, b) => (a, some b)
  match splitDots core_pre.1 with
  | [ma, mi, pa] =>
    match parseNumericStrict ma, parseNumericStrict mi, parseNumericStrict pa with
    | some major, some minor, some patch =>
      let preIds : Option (List (List Char)) :=
        match core_pre.2 with
        | none => some []
        | some pr => traverseOpt parsePreId (splitDots pr)
      let buildIds : Option (List (List Char)) :=
        match core_build.2 with
        | none => some []
        | some b => traverseOpt parseBuildId (splitDots b)
      match preIds, buildIds with
      | some preL, some buildL => some ⟨major, minor, patch, preL, buildL⟩
      | _, _ => none
    | _, _, _ => none
  | _ => none

/-- Whether an identifier consists solely of ASCII digits. -/
def allDigits (s : List Char) : Bool := s.all Char.isDigit

/-- The `semver` crate's per-identifier comparison: numeric identifiers
(all digits) order below alphanumeric ones and among themselves by
length then lexically (numeric value, robust to leading zeros);
otherwise plain lexicographic. -/
def idCompare (a b : List Char) : Ordering :=
  if allDigits a then
    if allDigits b then
      (compare a.length b.length).then (listCompare charCompare a b)
    else .lt
  else
    if allDigits b then .gt
    else listCompare charCompare a b

/-- Identifier-list comparison (used for prerelease tails and build
metadata): element-wise, shorter prefix first. -/
def identListCompare : List (List Char) → List (List Char) → Ordering :=
  listCompare idCompare

/-- semver precedence on prerelease lists: a release (no prerelease)
is above every prerelease. -/
def preCompare : List (List Char) → List (List Char) → Ordering
  | [], [] => .eq
  | [], _ :: _ => .gt
  | _ :: _, [] => .lt
  | x :: xs, y :: ys => identListCompare (x :: xs) (y :: ys)

/-- The `semver` crate's total order on versions: major, minor, patch,
prerelease precedence, then build metadata. -/
def semverCompare : SemVer → SemVer → Ordering :=
  cmpThen (cmpOn SemVer.major compare)
    (cmpThen (cmpOn SemVer.minor compare)
      (cmpThen (cmpOn SemVer.patch compare)
        (cmpThen (cmpOn SemVer.pre preCompare) (cmpOn SemVer.build identListCompare))))

theorem lexCompare_eq : CmpEq (listCompare charCompare) :=
  listCompare_eq charCompare_eq

theorem idCompare_swap : CmpSwap idCompare := by
  intro a b
  unfold idCompare
  by_cases ha : allDigits a = true <;> by_cases hb : allDigits b = true <;>
    simp only [ha, hb, if_pos, if_neg, Bool.false_eq_true, if_false, if_true]
  · rw [then_swap, natCompare_laws.swap a.length b.length,
      listCompare_swap charCompare_swap a b]
  · rfl
  · rfl
  · exact listCompare_swap charCompare_swap a b

theorem idCompare_eq : CmpEq idCompare := by
  intro a b
  unfold idCompare
  by_cases ha : allDigits a = true <;> by_cases hb : allDigits b = true <;>
    simp only [ha, hb, Bool.false_eq_true, if_false, if_true]
  · rw [then_eq_eq]
    constructor
    · intro ⟨_, h2⟩
      exact (lexCompare_eq a b).mp h2
    · rintro rfl
      exact ⟨Nat.compare_eq_eq.mpr rfl, (lexCompare_eq a a).mpr rfl⟩
  · constructor
    · intro h
      exact absurd h (by simp)
    · rintro rfl
      exact absurd ha hb
  · constructor
    · intro h
      exact absurd h (by simp)
    · rintro rfl
      exact absurd hb ha
  · exact lexCompare_eq a b

theorem idCompare_lt_trans : CmpLtTrans idCompare := by
  intro a b c hab hbc
  unfold idCompare at hab hbc ⊢
  by_cases ha : allDigits a = true <;> by_cases hb : allDigits b = true <;>
    by_cases hc : allDigits c = true <;>
    simp only [ha, hb, hc, Bool.false_eq_true, if_false, if_true] at hab hbc ⊢
  · -- all numeric: length-lex transitivity
    rcases (then_eq_lt _ _).mp hab with l1 | ⟨e1, l1'⟩ <;>
      rcases (then_eq_lt _ _).mp hbc with l2 | ⟨e2, l2'⟩
    · exact (then_eq_lt _ _).mpr (Or.inl (natCompare_laws.lt_trans _ _ _ l1 l2))
    · exact (then_eq_lt _ _).mpr (Or.inl (natCompare_laws.lt_eq _ _ _ l1 e2))
    · exact (then_eq_lt _ _).mpr (Or.inl (natCompare_laws.eq_lt _ _ _ e1 l2))
    · exact (then_eq_lt _ _).mpr (Or.inr ⟨natCompare_laws.eq_trans _ _ _ e1 e2,
        listCompare_lt_trans charCompare_eq charCompare_lt_trans _ _ _ l1' l2'⟩)
  · exact absurd hbc (by simp)
  · exact absurd hab (by simp)
  · exact absurd hab (by simp)
  · exact absurd hbc (by simp)
  · exact listCompare_lt_trans charCompare_eq charCompare_lt_trans _ _ _ hab hbc

theorem identListCompare_swap : CmpSwap identListCompare :=
  listCompare_swap idCompare_swap

theorem identListCompare_eq : CmpEq identListCompare :=
  listCompare_eq idCompare_eq

theorem identListCompare_lt_trans : CmpLtTrans identListCompare :=
  listCompare_lt_trans idCompare_eq idCompare_lt_trans

theorem preCompare_swap : CmpSwap preCompare := by
  intro a b
  cases a with
  | nil => cases b <;> rfl
  | cons x xs =>
    cases b with
    | nil => rfl
    | cons y ys => exact identListCompare_swap (x :: xs) (y :: ys)

theorem preCompare_eq : CmpEq preCompare := by
  intro a b
  cases a with
  | nil =>
    cases b with
    | nil => simp [preCompare]
    | cons y ys => simp [preCompare]
  | cons x xs =>
    cases b with
    | nil => simp [preCompare]
    | cons y ys => exact identListCompare_eq (x :: xs) (y :: ys)

theorem preCompare_lt_trans : CmpLtTrans preCompare := by
  intro a b c hab hbc
  cases a with
  | nil =>
    cases b with
    | nil => exact hbc
    | cons y ys => exact absurd hab (by simp [preCompare])
  | cons x xs =>
    cases b with
    | nil =>
      cases c with
      | nil => exact hab
      | cons z zs => exact absurd hbc (by simp [preCompare])
    | cons y ys =>
      cases c with
      | nil => rfl
      | cons z zs =>
        exact identListCompare_lt_trans _ _ _ hab hbc

theorem semverCompare_laws : CmpLaws semverCompare :=
  cmpThen_laws (cmpOn_laws SemVer.major natCompare_laws)
    (cmpThen_laws (cmpOn_laws SemVer.minor natCompare_laws)
      (cmpThen_laws (cmpOn_laws SemVer.patch natCompare_laws)
        (cmpThen_laws
          (cmpOn_laws SemVer.pre
            (cmpLaws_of_eq preCompare_swap preCompare_eq preCompare_lt_trans))
          (cmpOn_laws SemVer.build
            (cmpLaws_of_eq identListCompare_swap identListCompare_eq
              identListCompare_lt_trans)))))

/-! ### Maximum selection (`Iterator::max_by_key`) -/

/-- The fold of `max_by_key`: keep the accumulator only when the new
element is strictly smaller, so the LAST of equally-maximal elements
wins. -/
def maxByLastGo {α : Type _} (cmp : α → α → Ordering) (a : α) : List α → α
  | [] => a
  | x :: xs => maxByLastGo cmp (if cmp x a = .lt then a else x) xs

/-- `Iterator::max_by_key`: `none` on an empty list, otherwise the last
maximal element. -/
def maxByLast {α : Type _} (cmp : α → α → Ordering) : List α → Option α
  | [] => none
  | x :: xs => some (maxByLastGo cmp x xs)

theorem maxByLastGo_mem {α : Type _} (cmp : α → α → Ordering) (a : α) (xs : List α) :
    maxByLastGo cmp a xs = a ∨ maxByLastGo cmp a xs ∈ xs := by
  induction xs generalizing a with
  | nil => exact Or.inl rfl
  | cons x xs ih =>
    show maxByLastGo cmp (if cmp x a = .lt then a else x) xs = a ∨
      maxByLastGo cmp (if cmp x a = .lt then a else x) xs ∈ x :: xs
    by_cases hc : cmp x a = .lt
    · rw [if_pos hc]
      rcases ih a with h | h
      · exact Or.inl h
      · exact Or.inr (List.mem_cons_of_mem _ h)
    · rw [if_neg hc]
      rcases ih x with h | h
      · refine Or.inr ?_
        rw [h]
        exact List.mem_cons_self x xs
      · exact Or.inr (List.mem_cons_of_mem _ h)

theorem maxByLastGo_max {α : Type _} {cmp : α → α → Ordering} (h : CmpLaws cmp)
    (a : α) (xs : List α) :
    cmp a (maxByLastGo cmp a xs) ≠ .gt ∧
      ∀ y ∈ xs, cmp y (maxByLastGo cmp a xs) ≠ .gt := by
  induction xs generalizing a with
  | nil =>
    refine ⟨?_, by simp⟩
    show cmp a a ≠ .gt
    intro hg
    have hsw := h.swap a a
    rw [hg] at hsw
    exact Ordering.noConfusion hsw
  | cons x xs ih =>
    show cmp a (maxByLastGo cmp (if cmp x a = .lt then a else x) xs) ≠ .gt ∧
      ∀ y ∈ x :: xs, cmp y (maxByLastGo cmp (if cmp x a = .lt then a else x) xs) ≠ .gt
    by_cases hc : cmp x a = .lt
    · rw [if_pos hc]
      obtain ⟨h1, h2⟩ := ih a
      refine ⟨h1, ?_⟩
      intro y hy
      rcases List.mem_cons.mp hy with rfl | hy'
      · exact cmp_le_trans h y a _ (by rw [hc]; exact Ordering.noConfusion) h1
      · exact h2 y hy'
    · rw [if_neg hc]
      obtain ⟨h1, h2⟩ := ih x
      have hax : cmp a x ≠ .gt := by
        intro hg
        have hsw := h.swap a x
        rw [hg] at hsw
        rcases o : cmp x a with _ | _ | _
        · exact hc o
        · rw [o] at hsw
          exact Ordering.noConfusion hsw
        · rw [o] at hsw
          exact Ordering.noConfusion hsw
      refine ⟨cmp_le_trans h a x _ hax h1, ?_⟩
      intro y hy
      rcases List.mem_cons.mp hy with rfl | hy'
      · exact h1
      · exact h2 y hy'

/-- `max_by_key` returns an element of the list that no other element
exceeds. -/
theorem maxByLast_spec {α : Type _} {cmp : α → α → Ordering} (h : CmpLaws cmp)
    (xs : List α) (m : α) (hm : maxByLast cmp xs = some m) :
    m ∈ xs ∧ ∀ y ∈ xs, cmp y m ≠ .gt := by
  cases xs with
  | nil => exact absurd hm (by simp [maxByLast])
  | cons x xs =>
    have hgo : maxByLastGo cmp x xs = m := by
      simpa [maxByLast] using hm
    constructor
    · rcases maxByLastGo_mem cmp x xs with h' | h'
      · rw [← hgo, h']
        exact List.mem_cons_self _ _
      · rw [← hgo]
        exact List.mem_cons_of_mem _ h'
    · intro y hy
      rw [← hgo]
      rcases List.mem_cons.mp hy with rfl | hy'
      · exact (maxByLastGo_max h y xs).1
      · exact (maxByLastGo_max h x xs).2 y hy'

/-! ### `find_morph_path` -/

/-- The filesystem a registry lookup consults: the directory entries
under `<root>/<package>` that are directories (`read_dir` + `is_dir`),
and whether a path (as components, joined by the path separator)
canonicalizes, i.e. exists. Resolution is read-only: it is a pure
function of this view. -/
structure RegistryFS where
  dirNames : String → String → List String
  fileOk : List String → Bool

/-- The failure cases of `find_morph_path` (invalid identifier, "No
versions found", or a `canonicalize` error for a missing file). -/
inductive MorphError
  | invalidIdentifier
  | noVersions
  | notFound
deriving DecidableEq, Repr

/-- `find_morph_path`: parse `package:name[@version]`; with a version,
use it as the directory; without one, pick the `max_by_key` over the
semver-parsed directory names; then join `<name>.wasm` and
canonicalize. -/
def find_morph_path (fs : RegistryFS) (registry_path : String) (input : String) :
    Except MorphError (List String) :=
  match parse_identifier input with
  | none => .error .invalidIdentifier
  | some (package, name, vers) =>
    match vers with
    | some v =>
      let p := [registry_path, package, v, name ++ ".wasm"]
      if fs.fileOk p then .ok p else .error .notFound
    | none =>
      match maxByLast (fun x y => semverCompare x.1 y.1)
          ((fs.dirNames registry_path package).filterMap
            (fun d => (parseSemVer d).map (fun sv => (sv, d)))) with
      | none => .error .noVersions
      | some (_, d) =>
        let p := [registry_path, package, d, name ++ ".wasm"]
        if fs.fileOk p then .ok p else .error .notFound

theorem splitOnceAux_not_mem {c : Char} {l : List Char} (h : c ∉ l) :
    splitOnceAux c l = none := by
  induction l with
  | nil => rfl
  | cons x xs ih =>
    have hx : ¬ x = c := fun e => h (by simp [e])
    simp only [splitOnceAux, if_neg hx, ih (fun hm => h (List.mem_cons_of_mem _ hm))]

theorem splitOnceAux_append (c : Char) (a b : List Char) (h : c ∉ a) :
    splitOnceAux c (a ++ c :: b) = some (a, b) := by
  induction a with
  | nil => simp [splitOnceAux]
  | cons x xs ih =>
    have hx : ¬ x = c := fun e => h (by simp [e])
    have ih' := ih (fun hm => h (List.mem_cons_of_mem _ hm))
    simp only [List.cons_append, splitOnceAux, if_neg hx, List.append_eq, ih']

theorem toList_mk (cs : List Char) : (String.mk cs).toList = cs := rfl

theorem string_mk_toList (s : String) : String.mk s.toList = s := by
  cases s
  rfl

theorem parse_identifier_with_version (p n v : String)
    (hp : ':' ∉ p.toList) (hn : '@' ∉ n.toList) :
    parse_identifier (p ++ ":" ++ n ++ "@" ++ v) = some (p, n, some v) := by
  have htl : (p ++ ":" ++ n ++ "@" ++ v).toList =
      p.toList ++ ':' :: (n.toList ++ '@' :: v.toList) := by
    show p.toList ++ ":".toList ++ n.toList ++ "@".toList ++ v.toList = _
    simp
  unfold parse_identifier splitOnce
  rw [htl, splitOnceAux_append ':' _ _ hp]
  simp only [toList_mk]
  rw [splitOnceAux_append '@' _ _ hn]
  simp only [string_mk_toList]

theorem parse_identifier_no_version (p n : String)
    (hp : ':' ∉ p.toList) (hn : '@' ∉ n.toList) :
    parse_identifier (p ++ ":" ++ n) = some (p, n, none) := by
  have htl : (p ++ ":" ++ n).toList = p.toList ++ ':' :: n.toList := by
    show p.toList ++ ":".toList ++ n.toList = _
    simp
  unfold parse_identifier splitOnce
  rw [htl, splitOnceAux_append ':' _ _ hp]
  simp only [toList_mk]
  rw [splitOnceAux_not_mem hn]
  simp only [string_mk_toList]

/-- The registry of the claim's concrete scenario: the package has
version directories `1.0.0`, `1.2.0` and `2.0.0-beta.1`, and every
path exists. -/
def demoRegistry : RegistryFS :=
  ⟨fun _ _ => ["1.0.0", "1.2.0", "2.0.0-beta.1"], fun _ => true⟩

/-! ### Theorems: C6 -/

/-- C6: morph resolution. (i) For an identifier `p:n@v` the resolver
returns the path `<root>/<p>/<v>/<n>.wasm` when that file exists, and
fails when it does not; (ii) for `p:n` with no version, the selected
directory is a semver-valid directory of the package that no other
semver-valid directory exceeds in the `semver` crate's order
(semver precedence, ties broken by build metadata), and the resolver
returns the `<n>.wasm` under it when it exists; (iii) concretely, with
directories `1.0.0`, `1.2.0` and `2.0.0-beta.1`, `p:n` resolves to
`2.0.0-beta.1/n.wasm` and `p:n@1.0.0` to `1.0.0/n.wasm`. Resolution is
a pure function of the filesystem view (read-only). -/
theorem find_morph_path_spec (fs : RegistryFS) (root p n v : String)
    (hp : ':' ∉ p.toList) (hn : '@' ∉ n.toList) :
    (fs.fileOk [root, p, v, n ++ ".wasm"] = true →
      find_morph_path fs root (p ++ ":" ++ n ++ "@" ++ v) =
        .ok [root, p, v, n ++ ".wasm"]) ∧
    (fs.fileOk [root, p, v, n ++ ".wasm"] = false →
      find_morph_path fs root (p ++ ":" ++ n ++ "@" ++ v) = .error .notFound) ∧
    (∀ sv d,
      maxByLast (fun x y => semverCompare x.1 y.1)
          ((fs.dirNames root p).filterMap
            (fun d0 => (parseSemVer d0).map (fun sv0 => (sv0, d0)))) = some (sv, d) →
      d ∈ fs.dirNames root p ∧ parseSemVer d = some sv ∧
        (∀ d' sv', d' ∈ fs.dirNames root p → parseSemVer d' = some sv' →
          semverCompare sv' sv ≠ .gt) ∧
        (fs.fileOk [root, p, d, n ++ ".wasm"] = true →
          find_morph_path fs root (p ++ ":" ++ n) = .ok [root, p, d, n ++ ".wasm"])) ∧
    find_morph_path demoRegistry "root" "p:n" =
      .ok ["root", "p", "2.0.0-beta.1", "n.wasm"] ∧
    find_morph_path demoRegistry "root" "p:n@1.0.0" =
      .ok ["root", "p", "1.0.0", "n.wasm"] := by
  refine ⟨?_, ?_, ?_, by rfl, by rfl⟩
  · intro hok
    unfold find_morph_path
    rw [parse_identifier_with_version p n v hp hn]
    simp only [hok, if_true]
  · intro hok
    unfold find_morph_path
    rw [parse_identifier_with_version p n v hp hn]
    simp only [hok, Bool.false_eq_true, if_false]
  · intro sv d hmax
    have hspec := maxByLast_spec (cmpOn_laws Prod.fst semverCompare_laws) _ _ hmax
    obtain ⟨hmem, hmaxi⟩ := hspec
    obtain ⟨d0, hd0mem, hf⟩ := List.mem_filterMap.mp hmem
    obtain ⟨sv0, hparse0, heq⟩ := Option.map_eq_some'.mp hf
    obtain ⟨rfl, rfl⟩ : sv0 = sv ∧ d0 = d := by
      simpa [Prod.ext_iff] using heq
    refine ⟨hd0mem, hparse0, ?_, ?_⟩
    · intro d' sv' hd' hparse'
      have hy : (sv', d') ∈ (fs.dirNames root p).filterMap
          (fun d0 => (parseSemVer d0).map (fun sv0 => (sv0, d0))) :=
        List.mem_filterMap.mpr ⟨d', hd', by rw [hparse']; rfl⟩
      exact hmaxi (sv', d') hy
    · intro hok
      unfold find_morph_path
      rw [parse_identifier_no_version p n hp hn]
      simp only [hmax, hok, if_true]

/-- C6 witness: concrete application of `find_morph_path_spec` at a
versioned lookup in the demo registry. -/
theorem find_morph_path_spec_witness :
    find_morph_path demoRegistry "r" ("a" ++ ":" ++ "b" ++ "@" ++ "1.0.0") =
      .ok ["r", "a", "1.0.0", "b" ++ ".wasm"] :=
  (find_morph_path_spec demoRegistry "r" "a" "b" "1.0.0"
      (by decide) (by decide)).1 (by rfl)

/-! ## DSN classification (`ConnectionStringParser::get_database_type`)

`get_database_type` trims the connection string, tries a URL parse and
dispatches on the scheme; on parse failure or an unknown scheme it
falls back to `fallback_detect`. The `url` crate is external; its parse
is modelled by scheme extraction (an ASCII-alphabetic first character,
scheme characters, then `:`), which agrees with it on every DSN shape
the code distinguishes. -/

/-- `DatabaseType` in connection_string.rs. -/
inductive DatabaseType
  | PostgreSQL
  | SQLite
  | MySQL
  | Unknown
deriving DecidableEq, Repr

/-- `str::to_ascii_lowercase` (the DSNs involved are ASCII). -/
def toLowerList (s : List Char) : List Char := s.map Char.toLower

/-- `str::starts_with`. -/
def startsWithList : List Char → List Char → Bool
  | _, [] => true
  | [], _ :: _ => false
  | a :: as, b :: bs => a = b && startsWithList as bs

/-- `str::ends_with`. -/
def endsWithList (l suf : List Char) : Bool := startsWithList l.reverse suf.reverse

/-- `str::contains` for a substring pattern. -/
def containsSub : List Char → List Char → Bool
  | [], pat => startsWithList [] pat
  | x :: t, pat => startsWithList (x :: t) pat || containsSub t pat

/-- `str::split_whitespace`: whitespace-separated tokens, no empties. -/
def splitWs (s : List Char) : List (List Char) :=
  (List.splitOnP (fun c => c.isWhitespace) s).filter (fun t => !t.isEmpty)

/-- The recognized libpq keys in `seems_like_libpq_keywords`. -/
def libpqKeys : List (List Char) :=
  ["user", "password", "host", "port", "dbname", "application_name",
   "sslmode", "options"].map String.toList

/-- The token loop of `seems_like_libpq_keywords`: return true at the
first recognized `key=`; otherwise remember that some `key=value`
token was seen. -/
def libpqGo : List (List Char) → Bool → Bool
  | [], acc => acc
  | t :: ts, acc =>
    match splitOnceAux '=' t with
    | none => libpqGo ts acc
    | some (k, _) =>
      if libpqKeys.contains (toLowerList k) then true
      else libpqGo ts true

/-- `seems_like_libpq_keywords` in connection_string.rs. -/
def seems_like_libpq_keywords (s : List Char) : Bool :=
  libpqGo (splitWs s) false

/-- Characters allowed after the first position of a URL scheme. -/
def isSchemeChar (c : Char) : Bool :=
  c.isAlpha || c.isDigit || c = '+' || c = '-' || c = '.'

/-- Scheme scan: on `:` the collected scheme is complete. -/
def urlSchemeAux (acc : List Char) : List Char → Option (List Char)
  | [] => none
  | c :: rest =>
    if c = ':' then some acc.reverse
    else if isSchemeChar c then urlSchemeAux (c :: acc) rest
    else none

/-- Models `url::Url::parse` at the granularity the classifier uses:
the scheme of the string when it parses as a URL (an ASCII-alphabetic
character, scheme characters, then `:`), `none` when it does not. -/
def urlScheme : List Char → Option (List Char)
  | [] => none
  | c :: rest => if c.isAlpha then urlSchemeAux [c] rest else none

/-- `fallback_detect` in connection_string.rs, in source order:
in-memory SQLite forms, SQLite file suffixes or path-like strings,
libpq keywords, Go-style MySQL DSN, MySQL scheme prefixes, else
Unknown. -/
def fallback_detect (s : List Char) : DatabaseType :=
  let lower := toLowerList s
  if lower = "sqlite::memory:".toList ||
      startsWithList lower "file::memory:".toList then
    .SQLite
  else
    let looks_like_path :=
      startsWithList s "./".toList || startsWithList s "../".toList ||
        startsWithList s "/".toList || (s.contains '\\' && s[1]? = some ':')
    if endsWithList lower ".db".toList || endsWithList lower ".sqlite".toList ||
        endsWithList lower ".sqlite3".toList || looks_like_path then
      .SQLite
    else if seems_like_libpq_keywords s then .PostgreSQL
    else if containsSub lower "@tcp(".toList && containsSub lower ")/".toList then
      .MySQL
    else if startsWithList lower "mariadb://".toList ||
        startsWithList lower "mysql://".toList ||
        startsWithList lower "mysqlx://".toList then
      .MySQL
    else .Unknown

/-- The scheme dispatch of `get_database_type` after URL parsing. -/
def classifyDsn (s : List Char) : DatabaseType :=
  match urlScheme s with
  | some sch =>
    let scheme := toLowerList sch
    if scheme = "postgres".toList || scheme = "postgresql".toList then .PostgreSQL
    else if scheme = "mysql".toList || scheme = "mariadb".toList ||
        scheme = "mysqlx".toList then .MySQL
    else if scheme = "sqlite".toList then .SQLite
    else if scheme = "file".toList then .SQLite
    else fallback_detect s
  | none => fallback_detect s

/-- `str::trim`: drop whitespace from both ends. -/
def trimList (s : List Char) : List Char :=
  ((s.dropWhile Char.isWhitespace).reverse.dropWhile Char.isWhitespace).reverse

/-- `ConnectionStringParser::get_database_type` (the constructor and
the method both trim). -/
def get_database_type (s : String) : DatabaseType :=
  classifyDsn (trimList s.toList)

/-! ### Theorems: C7 -/

/-- C7: DSN classification. The seven concrete classifications of the
claim, and the general fallback behaviour when the string does not
parse as a URL: a `.db`/`.sqlite`/`.sqlite3` suffix or a path-like
shape (or an in-memory SQLite form) yields SQLite; otherwise libpq
keyword form yields PostgreSQL; otherwise an `@tcp(...)/ `-style DSN
yields MySQL — in that order. -/
theorem get_database_type_spec :
    get_database_type "sqlite://foo.db" = .SQLite ∧
    get_database_type "postgres://u@h/d" = .PostgreSQL ∧
    get_database_type "mysql://u@h/d" = .MySQL ∧
    get_database_type "user=x dbname=y" = .PostgreSQL ∧
    get_database_type "./x.db" = .SQLite ∧
    get_database_type "sqlite::memory:" = .SQLite ∧
    get_database_type "garbage" = .Unknown ∧
    (∀ s : List Char, urlScheme s = none →
      (endsWithList (toLowerList s) ".db".toList = true ∨
        endsWithList (toLowerList s) ".sqlite".toList = true ∨
        endsWithList (toLowerList s) ".sqlite3".toList = true ∨
        startsWithList s "./".toList = true ∨
        startsWithList s "../".toList = true ∨
        startsWithList s "/".toList = true ∨
        (s.contains '\\' && s[1]? = some ':') = true) →
      classifyDsn s = .SQLite) ∧
    (∀ s : List Char, urlScheme s = none →
      ¬ (toLowerList s = "sqlite::memory:".toList ∨
          startsWithList (toLowerList s) "file::memory:".toList = true) →
      ¬ (endsWithList (toLowerList s) ".db".toList = true ∨
          endsWithList (toLowerList s) ".sqlite".toList = true ∨
          endsWithList (toLowerList s) ".sqlite3".toList = true ∨
          startsWithList s "./".toList = true ∨
          startsWithList s "../".toList = true ∨
          startsWithList s "/".toList = true ∨
          (s.contains '\\' && s[1]? = some ':') = true) →
      seems_like_libpq_keywords s = true →
      classifyDsn s = .PostgreSQL) ∧
    (∀ s : List Char, urlScheme s = none →
      ¬ (toLowerList s = "sqlite::memory:".toList ∨
          startsWithList (toLowerList s) "file::memory:".toList = true) →
      ¬ (endsWithList (toLowerList s) ".db".toList = true ∨
          endsWithList (toLowerList s) ".sqlite".toList = true ∨
          endsWithList (toLowerList s) ".sqlite3".toList = true ∨
          startsWithList s "./".toList = true ∨
          startsWithList s "../".toList = true ∨
          startsWithList s "/".toList = true ∨
          (s.contains '\\' && s[1]? = some ':') = true) →
      seems_like_libpq_keywords s = false →
      containsSub (toLowerList s) "@tcp(".toList = true →
      containsSub (toLowerList s) ")/".toList = true →
      classifyDsn s = .MySQL) ∧
    (∀ s sch : List Char, urlScheme s = some sch →
      (toLowerList sch = "postgres".toList ∨ toLowerList sch = "postgresql".toList) →
      classifyDsn s = .PostgreSQL) := by
  refine ⟨by decide, by decide, by decide, by decide, by decide, by decide, by decide,
    ?_, ?_, ?_, ?_⟩
  · intro s hscheme hcond
    unfold classifyDsn
    rw [hscheme]
    unfold fallback_detect
    by_cases hmem : (toLowerList s = "sqlite::memory:".toList ||
        startsWithList (toLowerList s) "file::memory:".toList) = true
    · rw [if_pos (by simpa using hmem)]
    · rw [if_neg (by simpa using (by simpa using hmem))]
      rw [if_pos ?_]
      simp only [Bool.or_eq_true]
      rcases hcond with h | h | h | h | h | h | h <;> (simp at h ⊢; tauto)
  · intro s hscheme hmem hsql hpq
    unfold classifyDsn
    rw [hscheme]
    show fallback_detect s = DatabaseType.PostgreSQL
    unfold fallback_detect
    split_ifs <;> simp_all
  · intro s hscheme hmem hsql hpq htcp1 htcp2
    unfold classifyDsn
    rw [hscheme]
    show fallback_detect s = DatabaseType.MySQL
    unfold fallback_detect
    split_ifs <;> simp_all
  · intro s sch hscheme hsch
    unfold classifyDsn
    rw [hscheme]
    rcases hsch with h | h <;> simp only [h] <;> rw [if_pos (by simp)]

/-- C7 witness: concrete application of `get_database_type_spec`: a
bare relative path with a `.db` suffix classifies as SQLite through
the fallback. -/
theorem get_database_type_spec_witness :
    classifyDsn ("x.db").toList = DatabaseType.SQLite :=
  get_database_type_spec.2.2.2.2.2.2.2.1 ("x.db").toList (by decide)
    (Or.inl (by decide))

/-! ## Silo thread wait/kill (`SiloCtx` and `HostThread::wait`)

The registry maps thread ids to a record of the optional join handle
and the thread metadata. Awaiting a handle is modelled by the outcome
it produces; `take()` semantics are explicit state updates. The
per-thread output file is modelled by a byte function over paths. -/

/-- `ThreadStatus` in hayride-host-traits. -/
inductive ThreadStatus
  | Unknown
  | Processing
  | Exited
  | Killed
deriving DecidableEq, Repr

/-- The silo error numbers involved in wait/kill. -/
inductive SiloErrNo
  | threadNotFound
  | threadFailed
  | invalidThreadId
  | engineError
deriving DecidableEq, Repr

/-- The result awaiting a thread's `JoinHandle` produces. -/
inductive JoinOutcome
  | success
  | failure
deriving DecidableEq, Repr

/-- `ThreadData`: the optional live handle and the metadata status. -/
structure ThreadData where
  handle : Option JoinOutcome
  status : ThreadStatus
deriving DecidableEq, Repr

/-- The concurrent thread map of `SiloCtx`, as an association list
keyed by thread id. -/
structure SiloState where
  threads : List (Nat × ThreadData)
deriving DecidableEq, Repr

/-- Keyed lookup in the association list (`DashMap::get`). -/
def lookupAssoc (id : Nat) : List (Nat × ThreadData) → Option ThreadData
  | [] => none
  | (k, v) :: t => if k = id then some v else lookupAssoc id t

def lookupThread (st : SiloState) (id : Nat) : Option ThreadData :=
  lookupAssoc id st.threads

/-- Keyed in-place update of the association list (`get_mut`). -/
def updateAssoc (f : ThreadData → ThreadData) (id : Nat) :
    List (Nat × ThreadData) → List (Nat × ThreadData)
  | [] => []
  | (k, v) :: t =>
    if k = id then (k, f v) :: updateAssoc f id t
    else (k, v) :: updateAssoc f id t

def updateThread (st : SiloState) (id : Nat) (f : ThreadData → ThreadData) : SiloState :=
  ⟨updateAssoc f id st.threads⟩

/-- `SiloCtx::wait_for_thread`: take the handle out and await it; a
missing entry or an already-taken handle is `ThreadNotFound`, a failed
join is `ThreadFailed`. -/
def wait_for_thread (st : SiloState) (id : Nat) : Except SiloErrNo Unit × SiloState :=
  match lookupThread st id with
  | none => (.error .threadNotFound, st)
  | some d =>
    match d.handle with
    | none => (.error .threadNotFound, st)
    | some r =>
      let st' := updateThread st id (fun d0 => { d0 with handle := none })
      match r with
      | .success => (.ok (), st')
      | .failure => (.error .threadFailed, st')

/-- `SiloCtx::kill_thread`: abort the taken handle and mark the thread
`Killed`; without a live handle, `ThreadNotFound`. -/
def kill_thread (st : SiloState) (id : Nat) : Except SiloErrNo Unit × SiloState :=
  match lookupThread st id with
  | none => (.error .threadNotFound, st)
  | some d =>
    match d.handle with
    | none => (.error .threadNotFound, st)
    | some _ =>
      (.ok (), updateThread st id (fun _ => { handle := none, status := .Killed }))

/-- `HostThread::wait`: block on `wait_for_thread`, then return the
contents of `<out_dir>/<id>/out` when `out_dir` is set, an empty byte
vector otherwise. -/
def thread_wait (fileBytes : String → List Nat) (out_dir : Option String)
    (st : SiloState) (id : Nat) : Except SiloErrNo (List Nat) × SiloState :=
  match wait_for_thread st id with
  | (.error e, st') => (.error e, st')
  | (.ok _, st') =>
    match out_dir with
    | some d => (.ok (fileBytes (d ++ "/" ++ toString id ++ "/out")), st')
    | none => (.ok [], st')

theorem lookup_updateAssoc (f : ThreadData → ThreadData) (id : Nat)
    (l : List (Nat × ThreadData)) :
    lookupAssoc id (updateAssoc f id l) = (lookupAssoc id l).map f := by
  induction l with
  | nil => rfl
  | cons q t ih =>
    obtain ⟨k, v⟩ := q
    by_cases hk : k = id
    · subst hk
      rw [updateAssoc, if_pos rfl, lookupAssoc, if_pos rfl, lookupAssoc, if_pos rfl]
      rfl
    · rw [updateAssoc, if_neg hk, lookupAssoc, if_neg hk, lookupAssoc, if_neg hk]
      exact ih

theorem lookup_updateThread (st : SiloState) (id : Nat) (f : ThreadData → ThreadData) :
    lookupThread (updateThread st id f) id = (lookupThread st id).map f :=
  lookup_updateAssoc f id st.threads

/-! ### Theorems: C8 -/

/-- C8: `wait` on a thread whose task handle is live and whose task
succeeds returns the contents of `<out_dir>/<id>/out` when `out_dir`
is set and an empty byte vector otherwise, in both cases consuming the
handle; a second `wait` after any wait that found a live handle
returns `ThreadNotFound`; `kill` on a thread with no live handle (or
no entry at all) returns `ThreadNotFound` and leaves the state
unchanged. -/
theorem thread_wait_spec (fileBytes : String → List Nat) (st : SiloState) (id : Nat) :
    (∀ status d, lookupThread st id = some ⟨some JoinOutcome.success, status⟩ →
      thread_wait fileBytes (some d) st id =
        (.ok (fileBytes (d ++ "/" ++ toString id ++ "/out")),
          updateThread st id (fun d0 => { d0 with handle := none }))) ∧
    (∀ status, lookupThread st id = some ⟨some JoinOutcome.success, status⟩ →
      thread_wait fileBytes none st id =
        (.ok [], updateThread st id (fun d0 => { d0 with handle := none }))) ∧
    (∀ r status, lookupThread st id = some ⟨some r, status⟩ →
      (wait_for_thread (wait_for_thread st id).2 id).1 = .error .threadNotFound) ∧
    (∀ status, lookupThread st id = some ⟨none, status⟩ →
      kill_thread st id = (.error .threadNotFound, st)) ∧
    (lookupThread st id = none →
      kill_thread st id = (.error .threadNotFound, st)) := by
  refine ⟨?_, ?_, ?_, ?_, ?_⟩
  · intro status d h
    unfold thread_wait wait_for_thread
    rw [h]
  · intro status h
    unfold thread_wait wait_for_thread
    rw [h]
  · intro r status h
    have hstate : (wait_for_thread st id).2 =
        updateThread st id (fun d0 => { d0 with handle := none }) := by
      unfold wait_for_thread
      rw [h]
      cases r <;> rfl
    rw [hstate]
    unfold wait_for_thread
    rw [lookup_updateThread, h]
    rfl
  · intro status h
    unfold kill_thread
    rw [h]
  · intro h
    unfold kill_thread
    rw [h]

/-- C8 witness: concrete application of `thread_wait_spec`: waiting
twice on a one-thread registry yields `ThreadNotFound` the second
time. -/
theorem thread_wait_spec_witness :
    (wait_for_thread
        (wait_for_thread ⟨[(5, ⟨some JoinOutcome.success, ThreadStatus.Processing⟩)]⟩ 5).2
        5).1 = .error .threadNotFound :=
  (thread_wait_spec (fun _ => []) ⟨[(5, ⟨some JoinOutcome.success, ThreadStatus.Processing⟩)]⟩
      5).2.2.1 JoinOutcome.success ThreadStatus.Processing (by decide)

/-! ## WebSocket output pipe (`WebsocketOutputPipe::write`)

A write converts the bytes to UTF-8 (`str::from_utf8`), then
`try_send`s them into the bounded (2048) channel whose consumer task
sends one `Message::Text` per frame to the sink in queue order. Both
the UTF-8 failure and the `try_send` failure (full or closed channel)
surface as `StreamError::Closed` and transmit nothing. -/

/-- UTF-8 validity of a byte sequence, as decided by
`str::from_utf8` (the standard table: no overlongs, no surrogates,
maximum U+10FFFF). -/
def validUtf8 : List Nat → Bool
  | [] => true
  | b :: rest =>
    if b ≤ 0x7F then validUtf8 rest
    else if 0xC2 ≤ b ∧ b ≤ 0xDF then
      match rest with
      | b1 :: r => (0x80 ≤ b1 && b1 ≤ 0xBF) && validUtf8 r
      | [] => false
    else if b = 0xE0 then
      match rest with
      | b1 :: b2 :: r =>
        (0xA0 ≤ b1 && b1 ≤ 0xBF) && (0x80 ≤ b2 && b2 ≤ 0xBF) && validUtf8 r
      | _ => false
    else if 0xE1 ≤ b ∧ b ≤ 0xEC then
      match rest with
      | b1 :: b2 :: r =>
        (0x80 ≤ b1 && b1 ≤ 0xBF) && (0x80 ≤ b2 && b2 ≤ 0xBF) && validUtf8 r
      | _ => false
    else if b = 0xED then
      match rest with
      | b1 :: b2 :: r =>
        (0x80 ≤ b1 && b1 ≤ 0x9F) && (0x80 ≤ b2 && b2 ≤ 0xBF) && validUtf8 r
      | _ => false
    else if 0xEE ≤ b ∧ b ≤ 0xEF then
      match rest with
      | b1 :: b2 :: r =>
        (0x80 ≤ b1 && b1 ≤ 0xBF) && (0x80 ≤ b2 && b2 ≤ 0xBF) && validUtf8 r
      | _ => false
    else if b = 0xF0 then
      match rest with
      | b1 :: b2 :: b3 :: r =>
        (0x90 ≤ b1 && b1 ≤ 0xBF) && (0x80 ≤ b2 && b2 ≤ 0xBF) &&
          (0x80 ≤ b3 && b3 ≤ 0xBF) && validUtf8 r
      | _ => false
    else if 0xF1 ≤ b ∧ b ≤ 0xF3 then
      match rest with
      | b1 :: b2 :: b3 :: r =>
        (0x80 ≤ b1 && b1 ≤ 0xBF) && (0x80 ≤ b2 && b2 ≤ 0xBF) &&
          (0x80 ≤ b3 && b3 ≤ 0xBF) && validUtf8 r
      | _ => false
    else if b = 0xF4 then
      match rest with
      | b1 :: b2 :: b3 :: r =>
        (0x80 ≤ b1 && b1 ≤ 0x8F) && (0x80 ≤ b2 && b2 ≤ 0xBF) &&
          (0x80 ≤ b3 && b3 ≤ 0xBF) && validUtf8 r
      | _ => false
    else false

/-- The outbound channel capacity (`mpsc::channel(2048)`). -/
def wsCapacity : Nat := 2048

/-- The observable state of the output pipe: the frames queued in the
channel, the frames the writer task has already sent to the sink, and
whether the channel's receiver is gone. -/
structure WsOutState where
  queue : List (List Nat)
  sent : List (List Nat)
  receiverClosed : Bool
deriving DecidableEq, Repr

/-- The only error `write` reports (`StreamError::Closed`). -/
inductive WsError
  | closed
deriving DecidableEq, Repr

/-- `WebsocketOutputPipe::write`: UTF-8 check, then `try_send`; a full
or closed channel and invalid UTF-8 all yield `Closed` and leave the
state untouched; success enqueues exactly one text frame with exactly
the written bytes. -/
def wsWrite (st : WsOutState) (bytes : List Nat) : Except WsError Unit × WsOutState :=
  if ¬ validUtf8 bytes then (.error .closed, st)
  else if st.receiverClosed then (.error .closed, st)
  else if wsCapacity ≤ st.queue.length then (.error .closed, st)
  else (.ok (), { st with queue := st.queue ++ [bytes] })

/-- One step of the writer task: send the head frame to the sink. -/
def wsDrain (st : WsOutState) : WsOutState :=
  match st.queue with
  | [] => st
  | f :: rest => { st with queue := rest, sent := st.sent ++ [f] }

/-- `n` steps of the writer task. -/
def wsDrainN (st : WsOutState) : Nat → WsOutState
  | 0 => st
  | n + 1 => wsDrainN (wsDrain st) n

/-! ### Theorems: C9 -/

/-- C9: a write succeeds iff the bytes are valid UTF-8, the consumer
task is alive and the bounded queue (capacity 2048) has room; success
enqueues exactly one frame holding exactly those bytes; failure leaves
queue and sink untouched (the bytes are never transmitted); and the
writer task transmits frames in write order: after any number of drain
steps the sink holds exactly the first frames of the queue, in order. -/
theorem wsWrite_spec (st : WsOutState) (bytes : List Nat) (n : Nat) :
    ((wsWrite st bytes).1 = .ok () ↔
      validUtf8 bytes = true ∧ st.receiverClosed = false ∧
        st.queue.length < wsCapacity) ∧
    ((wsWrite st bytes).1 = .ok () →
      (wsWrite st bytes).2 = { st with queue := st.queue ++ [bytes] }) ∧
    ((wsWrite st bytes).1 = .error .closed → (wsWrite st bytes).2 = st) ∧
    (wsDrainN st n).sent = st.sent ++ st.queue.take n ∧
    (wsDrainN st n).queue = st.queue.drop n := by
  refine ⟨?_, ?_, ?_, ?_, ?_⟩
  · unfold wsWrite
    split_ifs with h1 h2 h3 <;> simp_all [wsCapacity]
  · intro h
    unfold wsWrite at h ⊢
    split_ifs at h ⊢ <;> first | rfl | exact Except.noConfusion h
  · intro h
    unfold wsWrite at h ⊢
    split_ifs at h ⊢ <;> first | rfl | exact Except.noConfusion h
  · induction n generalizing st with
    | zero => simp [wsDrainN]
    | succ m ih =>
      show (wsDrainN (wsDrain st) m).sent = _
      rw [ih (wsDrain st)]
      unfold wsDrain
      cases hq : st.queue with
      | nil => simp [hq]
      | cons f rest => simp
  · induction n generalizing st with
    | zero => simp [wsDrainN]
    | succ m ih =>
      show (wsDrainN (wsDrain st) m).queue = _
      rw [ih (wsDrain st)]
      unfold wsDrain
      cases hq : st.queue with
      | nil => simp [hq]
      | cons f rest => simp

/-- C9 witness: concrete application of `wsWrite_spec`: a successful
write of `"ok"` appends one frame to the queue. -/
theorem wsWrite_spec_witness :
    (wsWrite ⟨[], [], false⟩ [111, 107]).2 = ⟨[[111, 107]], [], false⟩ :=
  (wsWrite_spec ⟨[], [], false⟩ [111, 107] 0).2.1 (by rfl)

/-! ## File-backed stdin (`FileHostInputStream::read`)

`read(size)` takes the recorded position, stats the file, returns an
empty buffer at or past end-of-file, otherwise reads
`min(size, file_size - position)` bytes from the recorded offset and
advances the position by the bytes returned. The file is modelled by
its byte contents. -/

/-- `FileHostInputStream::read` at the value level: the bytes returned
and the new recorded position. `to_read = min size (file_size − pos)`
and `buf` is the `to_read` bytes at the recorded offset; a zero-byte
read keeps the position. -/
def file_read (file : List Nat) (position : Nat) (size : Nat) : List Nat × Nat :=
  if position ≥ file.length then ([], position)
  else if ((file.drop position).take (min size (file.length - position))).length = 0 then
    ([], position)
  else ((file.drop position).take (min size (file.length - position)),
    position + ((file.drop position).take (min size (file.length - position))).length)

/-- Successive reads: fold `file_read` over a list of requested
sizes, concatenating the returned bytes and threading the position. -/
def multiRead (file : List Nat) (position : Nat) : List Nat → List Nat × Nat
  | [] => ([], position)
  | n :: ns =>
    let r := file_read file position n
    let rest := multiRead file r.2 ns
    (r.1 ++ rest.1, rest.2)

theorem file_read_fst (file : List Nat) (q m : Nat) :
    (file_read file q m).1 = (file.drop q).take (min m (file.length - q)) := by
  unfold file_read
  split_ifs with h1 h2
  · rw [List.drop_eq_nil_of_le h1]
    simp
  · rw [List.length_eq_zero] at h2
    rw [h2]
  · rfl

theorem file_read_snd (file : List Nat) (q m : Nat) :
    (file_read file q m).2 = q + (file_read file q m).1.length := by
  unfold file_read
  split_ifs with h1 h2
  · simp
  · simp
  · rfl

theorem file_read_le (file : List Nat) (q m : Nat) (hq : q ≤ file.length) :
    (file_read file q m).2 ≤ file.length := by
  rw [file_read_snd, file_read_fst, List.length_take, List.length_drop]
  omega

theorem multiRead_mono (file : List Nat) (sizes : List Nat) :
    ∀ p, p ≤ (multiRead file p sizes).2 := by
  induction sizes with
  | nil => intro p; exact Nat.le_refl p
  | cons m ms ih =>
    intro p
    show p ≤ (multiRead file (file_read file p m).2 ms).2
    have h1 : p ≤ (file_read file p m).2 := by
      rw [file_read_snd]
      omega
    exact Nat.le_trans h1 (ih _)

theorem multiRead_concat (file : List Nat) (sizes : List Nat) :
    ∀ p, (multiRead file p sizes).1 =
      (file.drop p).take ((multiRead file p sizes).2 - p) := by
  induction sizes with
  | nil => intro p; simp [multiRead]
  | cons m ms ih =>
    intro p
    show (file_read file p m).1 ++ (multiRead file (file_read file p m).2 ms).1 =
      (file.drop p).take ((multiRead file (file_read file p m).2 ms).2 - p)
    set r2 := (file_read file p m).2 with hr2
    have h1 : (file_read file p m).1 = (file.drop p).take (r2 - p) := by
      rw [file_read_fst, hr2, file_read_snd, file_read_fst]
      congr 1
      rw [List.length_take, List.length_drop]
      omega
    rw [ih r2, h1]
    have hp2 : p ≤ r2 := by
      rw [hr2, file_read_snd]
      omega
    have hdrop : file.drop r2 = (file.drop p).drop (r2 - p) := by
      rw [List.drop_drop]
      congr 1
      omega
    rw [hdrop, ← List.take_add]
    congr 1
    have hr3 : r2 ≤ (multiRead file r2 ms).2 := multiRead_mono file ms r2
    omega

/-! ### Theorems: C10 -/

/-- C10: a read of `n` bytes at position `p` on a file of size `s`
returns exactly the `min n (s − p)` bytes at offset `p` and advances
the position by the number of bytes returned; at or past end-of-file
it returns an empty byte string (no error); the position never exceeds
the file size; and the concatenation of successive reads equals the
file's contents from the starting offset up to the final position. -/
theorem file_read_spec (file : List Nat) (p n : Nat) (sizes : List Nat) :
    (file_read file p n).1 = (file.drop p).take (min n (file.length - p)) ∧
    (file_read file p n).2 = p + (file_read file p n).1.length ∧
    (p ≥ file.length → (file_read file p n).1 = []) ∧
    (p ≤ file.length → (file_read file p n).2 ≤ file.length) ∧
    p ≤ (multiRead file p sizes).2 ∧
    (multiRead file p sizes).1 =
      (file.drop p).take ((multiRead file p sizes).2 - p) := by
  refine ⟨file_read_fst file p n, file_read_snd file p n, ?_,
    file_read_le file p n, multiRead_mono file sizes p, multiRead_concat file sizes p⟩
  intro h
  rw [file_read_fst, List.drop_eq_nil_of_le h]
  simp

/-- C10 witness: concrete application of `file_read_spec`: on a
6-byte file, reading past the end returns nothing and the position
stays within the file. -/
theorem file_read_spec_witness :
    (file_read [1, 2, 3, 4, 5, 6] 6 4).1 = [] ∧
    (file_read [1, 2, 3, 4, 5, 6] 4 10).2 ≤ 6 :=
  ⟨(file_read_spec [1, 2, 3, 4, 5, 6] 6 4 []).2.2.1 (by decide),
   (file_read_spec [1, 2, 3, 4, 5, 6] 4 10 []).2.2.2.1 (by decide)⟩

end Hayride
